import Mathlib

/-
Shallow embedding of the 3D warehouse-floor visualizer (src/unnamed/part_000,
a React three.js app).  JavaScript numbers are modelled as elements of a
linear ordered field (instantiated at ℚ for executable checks and at ℝ where
the source uses Math.PI).  Sparse JS objects keyed by box id are modelled as
functions `String → Option _` / `String → Bool`.  The React state of the
`App` component is collected in an `AppState` record, and each event handler
becomes a pure state transformer.
-/

namespace Warehouse3D

/-- The three position axes a move animation can name (`obj.axis`). -/
inductive Axis where
  | x
  | y
  | z
deriving DecidableEq, Repr

/-- The two animation kinds handled by `updateTransform` (`type` argument). -/
inductive Kind where
  | move
  | rotate
deriving DecidableEq, Repr

/-- A JavaScript value as it can appear in a `rowLabels` array: a string, an
integer number, `null` or `undefined`.  Needed to model the truthiness test
`floor.rowLabels?.[r] || r` in `expandGrid`. -/
inductive JVal where
  | str (s : String)
  | num (n : Int)
  | jnull
  | undef
deriving DecidableEq, Repr

/-- JavaScript truthiness of a `JVal`: the empty string, 0, null and
undefined are falsy, everything else is truthy. -/
def truthy : JVal → Bool
  | .str s => s ≠ ""
  | .num n => n ≠ 0
  | .jnull => false
  | .undef => false

/-- Template-literal conversion of a `JVal` to a string, as in
the id construction of `expandGrid`. -/
def jvalToString : JVal → String
  | .str s => s
  | .num n => toString n
  | .jnull => "null"
  | .undef => "undefined"

/-- The shared box template of a grid definition (`floor.box`). -/
structure BoxTemplate where
  width : ℚ
  height : ℚ
  depth : ℚ
  color : Option String
deriving DecidableEq, Repr

/-- A grid definition (`type: 'grid'` item of the model), as consumed by
`expandGrid`.  `grid` is the occupancy array; `rowLabels` is the optional
override list (`none` models an absent property). -/
structure Floor where
  rows : Nat
  cols : Nat
  grid : List (List Nat)
  cellWidth : ℚ
  cellDepth : ℚ
  rowLabels : Option (List JVal)
  box : BoxTemplate
  y : ℚ
deriving DecidableEq, Repr

/-- A box descriptor as pushed by `expandGrid`. -/
structure Box where
  id : String
  x : ℚ
  y : ℚ
  z : ℚ
  width : ℚ
  height : ℚ
  depth : ℚ
  color : Option String
deriving DecidableEq, Repr

/-- The raw `rowLabels?.[r]` lookup: `undefined` when the list is absent or
shorter than `r + 1`. -/
def labelValOf (floor : Floor) (r : Nat) : JVal :=
  match floor.rowLabels with
  | none => JVal.undef
  | some ls => ls.getD r JVal.undef

/-- The row label used by `expandGrid`: `floor.rowLabels?.[r] || r`,
converted to a string by the template literal.  A falsy lookup result falls
back to the numeric row index. -/
def rowLabelOf (floor : Floor) (r : Nat) : String :=
  if truthy (labelValOf floor r) then jvalToString (labelValOf floor r)
  else toString r

/-- Occupancy test `floor.grid[r][c]` (out-of-range reads as 0, which fails
the `=== 1` test just as `undefined` does). -/
def cellAt (floor : Floor) (r c : Nat) : Nat :=
  (floor.grid.getD r []).getD c 0

/-- The box pushed by `expandGrid` for an occupied cell `(r, c)`. -/
def gridBox (floor : Floor) (r c : Nat) : Box :=
  { id := rowLabelOf floor r ++ toString (c + 1)
    x := c * floor.cellWidth + floor.cellWidth / 2
    y := floor.y
    z := r * floor.cellDepth + floor.cellDepth / 2
    width := floor.box.width
    height := floor.box.height
    depth := floor.box.depth
    color := floor.box.color }

/-- `expandGrid`: the nested `for r / for c` loops pushing one box per cell
with `grid[r][c] === 1`, in row-major order. -/
def expandGrid (floor : Floor) : List Box :=
  (List.range floor.rows).flatMap fun r =>
    (List.range floor.cols).filterMap fun c =>
      if cellAt floor r c = 1 then some (gridBox floor r c) else none

/-- The occupied cells of a grid in row-major order (spec-side view used to
phrase "exactly one box per occupied cell"). -/
def occupiedCells (floor : Floor) : List (Nat × Nat) :=
  (List.range floor.rows).flatMap fun r =>
    ((List.range floor.cols).filter fun c => cellAt floor r c = 1).map
      fun c => (r, c)

/-- Spec-side box builder for an occupied cell `(r, c)`, following the
spec's formulas: world position `x = c*cellWidth + cellWidth/2`,
`z = r*cellDepth + cellDepth/2`, fixed `y`, id = row label followed by the
1-based column number, box shape and color from the shared template. -/
def specBoxOf (floor : Floor) (rc : Nat × Nat) : Box :=
  { id := rowLabelOf floor rc.1 ++ toString (rc.2 + 1)
    x := rc.2 * floor.cellWidth + floor.cellWidth / 2
    y := floor.y
    z := rc.1 * floor.cellDepth + floor.cellDepth / 2
    width := floor.box.width
    height := floor.box.height
    depth := floor.box.depth
    color := floor.box.color }

/-- Color resolution of the `Shape` component (the sequential reassignments
of `color`): base `box.color || 'limegreen'`, then the car-present override,
then the selection override, then the error-blink override. -/
def resolveColor (boxColor : Option String) (carHere isSelected isError blink : Bool) :
    String :=
  let color0 : String :=
    match boxColor with
    | some s => if s = "" then "limegreen" else s
    | none => "limegreen"
  let color1 : String := if carHere then "lightgray" else color0
  let color2 : String := if isSelected then "yellow" else color1
  if isError then (if blink then "firebrick" else color2) else color2

/-- The floating-label text lines of `Shape`: the box id, plus the
"Car Present" message when a car is on the box; visible only for the box
matching `labelBoxId`. -/
def resolveLabel (boxId : String) (labelBoxId : Option String) (carHere : Bool) :
    Option (List String) :=
  if labelBoxId = some boxId then
    some (if carHere then [boxId, "Car Present"] else [boxId])
  else none

section Animator

variable {α : Type} [LinearOrderedField α]

/-- The transform state of a box mesh that the animator touches: the three
position components and the Y rotation (`mesh.position`, `mesh.rotation.y`). -/
structure Mesh (α : Type) where
  posx : α
  posy : α
  posz : α
  roty : α
deriving DecidableEq, Repr

/-- An animation entry as stored in the `moving` / `rotating` maps:
the named position axis (only read on the move path; the rotate handler
stores a dummy `Axis.x` since the JS rotate object has no `axis` field) and
the remaining signed delta. -/
structure AnimObj (α : Type) where
  axis : Axis
  remaining : α
deriving DecidableEq, Repr

/-- JavaScript `Math.sign` on (non-NaN) numbers. -/
def jsign (r : α) : α :=
  if r < 0 then -1 else if r = 0 then 0 else 1

/-- The fixed per-kind speed of `updateTransform`:
`type === 'move' ? 1 : Math.PI`.  `piv` stands for `Math.PI` (instantiated
with `Real.pi` over ℝ). -/
def speedOf (piv : α) : Kind → α
  | .move => 1
  | .rotate => piv

/-- Read `mesh.position[axis]`. -/
def posGet (m : Mesh α) : Axis → α
  | .x => m.posx
  | .y => m.posy
  | .z => m.posz

/-- `mesh.position[axis] += v`, leaving the other components alone. -/
def posAdd (m : Mesh α) (a : Axis) (v : α) : Mesh α :=
  match a with
  | .x => { m with posx := m.posx + v }
  | .y => { m with posy := m.posy + v }
  | .z => { m with posz := m.posz + v }

/-- One call of `updateTransform(meshRef, obj, type, delta)`.  Returns the
updated mesh, the surviving map entry (`none` when `obj` was absent or when
the entry completed and `obj.resolve()` deleted it from its owning map) and
whether the completion callback fired on this call. -/
def updateTransform (piv : α) (mesh : Mesh α) (obj : Option (AnimObj α))
    (type : Kind) (delta : α) : Mesh α × Option (AnimObj α) × Bool :=
  match obj with
  | none => (mesh, none, false)
  | some o =>
    let speed := speedOf piv type
    let step := jsign o.remaining * min |o.remaining| (speed * delta)
    let mesh' :=
      match type with
      | .move => posAdd mesh o.axis step
      | .rotate => { mesh with roty := mesh.roty + step }
    let rem' := o.remaining - step
    if |rem'| < 1 / 1000 then (mesh', none, true)
    else (mesh', some { o with remaining := rem' }, false)

/-- Run one animation entry through a sequence of per-frame elapsed times
(`useFrame` deltas), threading the mesh and the map slot and counting the
completion-callback invocations. -/
def runEntry (piv : α) (type : Kind) :
    Mesh α → Option (AnimObj α) → List α → Mesh α × Option (AnimObj α) × Nat
  | mesh, obj, [] => (mesh, obj, 0)
  | mesh, obj, d :: ds =>
    let r := updateTransform piv mesh obj type d
    let rest := runEntry piv type r.1 r.2.1 ds
    (rest.1, rest.2.1, (if r.2.2 then 1 else 0) + rest.2.2)

/-- The mesh coordinate an animation entry of kind `k` drives: the named
position component for a move entry, the Y rotation for a rotate entry. -/
def tracked (k : Kind) (a : Axis) (m : Mesh α) : α :=
  match k with
  | .move => posGet m a
  | .rotate => m.roty

end Animator

section App

variable {α : Type} [LinearOrderedField α]

/-- The React state of the `App` component.  `selectedBoxId = none` models a
falsy `selectedBoxId` (`null` or the empty option value); `distance` is the
`parseFloat` reading of the distance field, `none` modelling `NaN`; the maps
keyed by box id are modelled as functions with `none` / `false` standing for
absent keys; `meshes` gives every box mesh's transform. -/
structure AppState (α : Type) where
  selectedBoxId : Option String
  axis : Axis
  distance : Option α
  moving : String → Option (AnimObj α)
  rotating : String → Option (AnimObj α)
  carsOnBoxes : String → Bool
  errorBoxes : String → Bool
  labelBoxId : Option String
  meshes : String → Mesh α

/-- The initial `useState` values: nothing selected, axis `'x'`, distance 0,
all maps empty. -/
def initState (meshes : String → Mesh α) : AppState α :=
  { selectedBoxId := none
    axis := Axis.x
    distance := some 0
    moving := fun _ => none
    rotating := fun _ => none
    carsOnBoxes := fun _ => false
    errorBoxes := fun _ => false
    labelBoxId := none
    meshes := meshes }

/-- `setSelectedBoxId` (pallet selector / box click). -/
def setSelected (v : Option String) (s : AppState α) : AppState α :=
  { s with selectedBoxId := v }

/-- `setAxis` (axis selector). -/
def setAxisSel (a : Axis) (s : AppState α) : AppState α :=
  { s with axis := a }

/-- `setDistance` (distance field), recorded as its `parseFloat` reading. -/
def setDistanceField (d : Option α) (s : AppState α) : AppState α :=
  { s with distance := d }

/-- `toggleCar`: unconditional flip of the car-present flag of one box. -/
def toggleCar (boxId : String) (s : AppState α) : AppState α :=
  { s with carsOnBoxes := fun k => if k = boxId then !s.carsOnBoxes k else s.carsOnBoxes k }

/-- `toggleError`: unconditional flip of the error flag of one box. -/
def toggleError (boxId : String) (s : AppState α) : AppState α :=
  { s with errorBoxes := fun k => if k = boxId then !s.errorBoxes k else s.errorBoxes k }

/-- `handleMove`: validates the selection, the parsed distance and the
absence of a live entry of either kind, then inserts a move entry with
`remaining = dist` for the selected box.  The `Bool` result records whether
the `alert` warning fired. -/
def handleMove (s : AppState α) : AppState α × Bool :=
  match s.selectedBoxId with
  | none => (s, true)
  | some sel =>
    match s.distance with
    | none => (s, false)
    | some dist =>
      if dist = 0 then (s, false)
      else if (s.moving sel).isSome || (s.rotating sel).isSome then (s, false)
      else
        ({ s with moving := fun k =>
            if k = sel then some { axis := s.axis, remaining := dist } else s.moving k },
         false)

/-- `handleRotate`: validates the selection and the absence of a live entry
of either kind, then inserts a rotate entry with `remaining = Math.PI`
(the parameter `piv`).  The `Bool` result records whether the `alert`
warning fired. -/
def handleRotate (piv : α) (s : AppState α) : AppState α × Bool :=
  match s.selectedBoxId with
  | none => (s, true)
  | some sel =>
    if (s.rotating sel).isSome || (s.moving sel).isSome then (s, false)
    else
      ({ s with rotating := fun k =>
          if k = sel then some { axis := Axis.x, remaining := piv } else s.rotating k },
       false)

/-- One `useFrame` tick of a single `Shape`: `updateTransform` on the box's
move entry, then on its rotate entry, against the same mesh. -/
def frameBox (piv : α) (boxId : String) (delta : α) (s : AppState α) : AppState α :=
  let r1 := updateTransform piv (s.meshes boxId) (s.moving boxId) Kind.move delta
  let r2 := updateTransform piv r1.1 (s.rotating boxId) Kind.rotate delta
  { s with
    meshes := fun k => if k = boxId then r2.1 else s.meshes k
    moving := fun k => if k = boxId then r1.2.1 else s.moving k
    rotating := fun k => if k = boxId then r2.2.1 else s.rotating k }

/-- The states of the `App` component reachable from the initial state by
user actions and frame ticks. -/
inductive Reachable (piv : α) : AppState α → Prop where
  | init (meshes : String → Mesh α) : Reachable piv (initState meshes)
  | select {s} (v : Option String) : Reachable piv s → Reachable piv (setSelected v s)
  | axisSel {s} (a : Axis) : Reachable piv s → Reachable piv (setAxisSel a s)
  | distance {s} (d : Option α) : Reachable piv s → Reachable piv (setDistanceField d s)
  | car {s} (boxId : String) : Reachable piv s → Reachable piv (toggleCar boxId s)
  | error {s} (boxId : String) : Reachable piv s → Reachable piv (toggleError boxId s)
  | move {s} : Reachable piv s → Reachable piv (handleMove s).1
  | rotate {s} : Reachable piv s → Reachable piv (handleRotate piv s).1
  | frame {s} (boxId : String) (delta : α) :
      Reachable piv s → Reachable piv (frameBox piv boxId delta s)

end App

/-! Helper lemmas about the animator. -/

section AnimatorLemmas

variable {α : Type} [LinearOrderedField α]

theorem jsign_mul_abs (r : α) : jsign r * |r| = r := by
  rcases lt_trichotomy r 0 with h | h | h
  · simp [jsign, h, abs_of_neg h, h.ne]
  · simp [jsign, h]
  · simp [jsign, h, h.not_lt, abs_of_pos h, h.ne']

theorem posGet_posAdd_self (m : Mesh α) (a : Axis) (v : α) :
    posGet (posAdd m a v) a = posGet m a + v := by
  cases a <;> rfl

theorem posGet_posAdd_other (m : Mesh α) (a b : Axis) (v : α) (h : b ≠ a) :
    posGet (posAdd m a v) b = posGet m b := by
  cases a <;> cases b <;> first | rfl | exact absurd rfl h

theorem roty_posAdd (m : Mesh α) (a : Axis) (v : α) :
    (posAdd m a v).roty = m.roty := by
  cases a <;> rfl

theorem updateTransform_none (piv : α) (m : Mesh α) (k : Kind) (δ : α) :
    updateTransform piv m none k δ = (m, none, false) := rfl

theorem updateTransform_entry_isSome (piv : α) (m : Mesh α) (e : Option (AnimObj α))
    (k : Kind) (δ : α) :
    (updateTransform piv m e k δ).2.1.isSome → e.isSome := by
  cases e with
  | none => simp [updateTransform]
  | some o => exact fun _ => rfl

theorem updateTransform_some_eq (piv : α) (m : Mesh α) (o : AnimObj α) (k : Kind) (δ : α) :
    updateTransform piv m (some o) k δ =
      (let step := jsign o.remaining * min |o.remaining| (speedOf piv k * δ)
       let mesh' :=
         match k with
         | Kind.move => posAdd m o.axis step
         | Kind.rotate => { m with roty := m.roty + step }
       let rem' := o.remaining - step
       if |rem'| < 1 / 1000 then (mesh', none, true)
       else (mesh', some ⟨o.axis, rem'⟩, false)) := rfl

theorem updateTransform_fired (piv : α) (m : Mesh α) (o : AnimObj α) (k : Kind) (δ : α) :
    (updateTransform piv m (some o) k δ).2.2 =
      !(updateTransform piv m (some o) k δ).2.1.isSome := by
  rw [updateTransform_some_eq]
  simp only
  split <;> simp

theorem updateTransform_tracked (piv : α) (m : Mesh α) (o : AnimObj α) (k : Kind) (δ : α) :
    (∃ o', (updateTransform piv m (some o) k δ).2.1 = some o' ∧ o'.axis = o.axis ∧
        tracked k o.axis (updateTransform piv m (some o) k δ).1 + o'.remaining =
          tracked k o.axis m + o.remaining) ∨
      ((updateTransform piv m (some o) k δ).2.1 = none ∧
        |tracked k o.axis (updateTransform piv m (some o) k δ).1 -
            (tracked k o.axis m + o.remaining)| < 1 / 1000) := by
  have htr : ∀ v : α,
      tracked k o.axis
          (match k with
            | Kind.move => posAdd m o.axis v
            | Kind.rotate => { m with roty := m.roty + v }) =
        tracked k o.axis m + v := by
    intro v
    cases k
    · simpa [tracked] using posGet_posAdd_self m o.axis v
    · simp [tracked]
  rw [updateTransform_some_eq]
  simp only
  split
  · right
    refine ⟨rfl, ?_⟩
    rename_i hlt
    rw [htr]
    have : tracked k o.axis m + jsign o.remaining * min |o.remaining| (speedOf piv k * δ) -
        (tracked k o.axis m + o.remaining) =
        -(o.remaining - jsign o.remaining * min |o.remaining| (speedOf piv k * δ)) := by
      ring
    rw [this, abs_neg]
    exact hlt
  · left
    refine ⟨_, rfl, rfl, ?_⟩
    rw [htr]
    ring

theorem runEntry_none (piv : α) (k : Kind) (m : Mesh α) (ds : List α) :
    runEntry piv k m none ds = (m, none, 0) := by
  induction ds with
  | nil => rfl
  | cons d ds ih => simp [runEntry, updateTransform_none, ih]

theorem runEntry_append (piv : α) (k : Kind) (m : Mesh α) (e : Option (AnimObj α))
    (ds₁ ds₂ : List α) :
    runEntry piv k m e (ds₁ ++ ds₂) =
      ((runEntry piv k (runEntry piv k m e ds₁).1 (runEntry piv k m e ds₁).2.1 ds₂).1,
       (runEntry piv k (runEntry piv k m e ds₁).1 (runEntry piv k m e ds₁).2.1 ds₂).2.1,
       (runEntry piv k m e ds₁).2.2 +
         (runEntry piv k (runEntry piv k m e ds₁).1 (runEntry piv k m e ds₁).2.1 ds₂).2.2) := by
  induction ds₁ generalizing m e with
  | nil => simp [runEntry]
  | cons d ds ih =>
    simp only [List.cons_append, runEntry, List.append_eq]
    rw [ih]
    simp [Nat.add_assoc]

theorem runEntry_count (piv : α) (k : Kind) (m : Mesh α) (o : AnimObj α) (ds : List α) :
    (runEntry piv k m (some o) ds).2.2 =
      (if (runEntry piv k m (some o) ds).2.1 = none then 1 else 0) := by
  induction ds generalizing m o with
  | nil => simp [runEntry]
  | cons d ds ih =>
    rw [runEntry]
    simp only
    rcases h : (updateTransform piv m (some o) k d).2.1 with _ | o'
    · have hfired : (updateTransform piv m (some o) k d).2.2 = true := by
        rw [updateTransform_fired, h]
        rfl
      simp [h, hfired, runEntry_none]
    · have hfired : (updateTransform piv m (some o) k d).2.2 = false := by
        rw [updateTransform_fired, h]
        rfl
      simp [h, hfired, ih]

theorem runEntry_tracked (piv : α) (k : Kind) (m : Mesh α) (o : AnimObj α) (ds : List α) :
    (∃ o', (runEntry piv k m (some o) ds).2.1 = some o' ∧ o'.axis = o.axis ∧
        tracked k o.axis (runEntry piv k m (some o) ds).1 + o'.remaining =
          tracked k o.axis m + o.remaining) ∨
      ((runEntry piv k m (some o) ds).2.1 = none ∧
        |tracked k o.axis (runEntry piv k m (some o) ds).1 -
            (tracked k o.axis m + o.remaining)| < 1 / 1000) := by
  induction ds generalizing m o with
  | nil => exact Or.inl ⟨o, rfl, rfl, rfl⟩
  | cons d ds ih =>
    rw [runEntry]
    simp only
    rcases updateTransform_tracked piv m o k d with ⟨o', ho', hax, hsum⟩ | ⟨ho, hres⟩
    · rw [ho']
      rcases ih (updateTransform piv m (some o) k d).1 o' with
        ⟨o'', ho'', hax', hsum'⟩ | ⟨ho'', hres'⟩
      · exact Or.inl ⟨o'', ho'', hax'.trans hax, by rw [hax] at hsum'; linarith⟩
      · refine Or.inr ⟨ho'', ?_⟩
        rw [hax] at hres'
        have : tracked k o.axis (runEntry piv k (updateTransform piv m (some o) k d).1
            (some o') ds).1 - (tracked k o.axis m + o.remaining) =
            tracked k o.axis (runEntry piv k (updateTransform piv m (some o) k d).1
              (some o') ds).1 -
              (tracked k o.axis (updateTransform piv m (some o) k d).1 + o'.remaining) := by
          linarith
        rw [this]
        exact hres'
    · rw [ho, runEntry_none]
      exact Or.inr ⟨rfl, hres⟩

theorem step_no_overshoot_aux (r μ : α) (hμ0 : 0 ≤ μ) (hμr : μ ≤ |r|) :
    0 ≤ (r - jsign r * μ) * r ∧ |r - jsign r * μ| ≤ |r| := by
  rcases lt_trichotomy r 0 with h | h | h
  · have habs : |r| = -r := abs_of_neg h
    rw [habs] at hμr
    have hr' : r - jsign r * μ = r + μ := by
      simp only [jsign, if_pos h]
      ring
    rw [hr']
    constructor
    · have h1 : 0 ≤ -(r + μ) * -r := mul_nonneg (by linarith) (by linarith)
      nlinarith [h1]
    · rw [abs_of_nonpos (by linarith), habs]
      linarith
  · simp [h, jsign]
  · have habs : |r| = r := abs_of_pos h
    rw [habs] at hμr
    have hr' : r - jsign r * μ = r - μ := by
      simp only [jsign, if_neg h.not_lt, if_neg h.ne']
      ring
    rw [hr']
    constructor
    · exact mul_nonneg (by linarith) h.le
    · rw [abs_of_nonneg (by linarith), habs]
      linarith

theorem step_no_overshoot (r c : α) (hc : 0 ≤ c) :
    0 ≤ (r - jsign r * min |r| c) * r ∧ |r - jsign r * min |r| c| ≤ |r| :=
  step_no_overshoot_aux r (min |r| c) (le_min (abs_nonneg r) hc) (min_le_left _ _)

theorem abs_sub_jsign_min_of_lt (r c : α) (hc : 0 ≤ c) (h : c < |r|) :
    |r - jsign r * min |r| c| = |r| - c := by
  rw [min_eq_right h.le]
  rcases lt_trichotomy r 0 with hr | hr | hr
  · have habs : |r| = -r := abs_of_neg hr
    rw [habs] at h ⊢
    have hstep : r - jsign r * c = r + c := by
      simp only [jsign, if_pos hr]
      ring
    rw [hstep, abs_of_nonpos (by linarith)]
    ring
  · rw [hr] at h
    simp only [abs_zero] at h
    linarith
  · have habs : |r| = r := abs_of_pos hr
    rw [habs] at h ⊢
    have hstep : r - jsign r * c = r - c := by
      simp only [jsign, if_neg hr.not_lt, if_neg hr.ne']
      ring
    rw [hstep, abs_of_nonneg (by linarith)]

theorem updateTransform_decrease (piv : α) (m : Mesh α) (o : AnimObj α) (k : Kind)
    (δ ε : α) (hs : 0 < speedOf piv k) (hε : 0 < ε) (hδ : ε ≤ δ) :
    (updateTransform piv m (some o) k δ).2.1 = none ∨
      ∃ o', (updateTransform piv m (some o) k δ).2.1 = some o' ∧
        |o'.remaining| ≤ |o.remaining| - speedOf piv k * ε := by
  rw [updateTransform_some_eq]
  simp only
  split
  · exact Or.inl rfl
  · rename_i hnot
    rcases le_or_lt |o.remaining| (speedOf piv k * δ) with hle | hlt
    · exfalso
      apply hnot
      rw [min_eq_left hle, jsign_mul_abs]
      simp
    · refine Or.inr ⟨_, rfl, ?_⟩
      have hcpos : (0 : α) ≤ speedOf piv k * δ :=
        mul_nonneg hs.le (hε.le.trans hδ)
      rw [abs_sub_jsign_min_of_lt _ _ hcpos hlt]
      have : speedOf piv k * ε ≤ speedOf piv k * δ :=
        mul_le_mul_of_nonneg_left hδ hs.le
      linarith

theorem runEntry_single (piv : α) (k : Kind) (m : Mesh α) (e : Option (AnimObj α)) (d : α) :
    runEntry piv k m e [d] =
      ((updateTransform piv m e k d).1, (updateTransform piv m e k d).2.1,
        if (updateTransform piv m e k d).2.2 then 1 else 0) := by
  simp [runEntry]

theorem runEntry_range_decrease (piv : α) (k : Kind) (t : Nat → α) (ε : α)
    (hs : 0 < speedOf piv k) (hε : 0 < ε) (ht : ∀ n, ε ≤ t n) (m : Mesh α) (o : AnimObj α) :
    ∀ n : Nat, (runEntry piv k m (some o) ((List.range n).map t)).2.1 = none ∨
      ∃ o', (runEntry piv k m (some o) ((List.range n).map t)).2.1 = some o' ∧
        |o'.remaining| ≤ |o.remaining| - n * (speedOf piv k * ε) := by
  intro n
  induction n with
  | zero => exact Or.inr ⟨o, rfl, by simp⟩
  | succ n ih =>
    rw [List.range_succ, List.map_append, runEntry_append]
    rcases ih with hnone | ⟨o', ho', hbound⟩
    · rw [hnone, runEntry_none]
      exact Or.inl rfl
    · rw [ho']
      simp only [List.map_cons, List.map_nil, runEntry_single]
      rcases updateTransform_decrease piv
          (runEntry piv k m (some o) ((List.range n).map t)).1 o' k (t n) ε hs hε (ht n) with
        hn | ⟨o'', ho'', hdec⟩
      · rw [hn]
        exact Or.inl rfl
      · rw [ho'']
        refine Or.inr ⟨o'', rfl, ?_⟩
        push_cast
        have : (n : α) * (speedOf piv k * ε) + speedOf piv k * ε =
            ((n : α) + 1) * (speedOf piv k * ε) := by ring
        linarith

end AnimatorLemmas

/-! Helper lemmas about the grid expander. -/

section GridLemmas

theorem gridBox_eq_specBoxOf (floor : Floor) (r c : Nat) :
    gridBox floor r c = specBoxOf floor (r, c) := rfl

theorem expandGrid_row (floor : Floor) (r : Nat) (L : List Nat) :
    (L.filterMap fun c => if cellAt floor r c = 1 then some (gridBox floor r c) else none) =
      ((L.filter fun c => cellAt floor r c = 1).map fun c => specBoxOf floor (r, c)) := by
  induction L with
  | nil => rfl
  | cons a L ih =>
    rw [List.filterMap_cons, List.filter_cons]
    by_cases h : cellAt floor r a = 1
    · rw [if_pos h, ih, gridBox_eq_specBoxOf]
      simp [h]
    · rw [if_neg h, ih]
      simp [h]

theorem expandGrid_eq_map_occupied (floor : Floor) :
    expandGrid floor = (occupiedCells floor).map (specBoxOf floor) := by
  rw [expandGrid, occupiedCells]
  generalize List.range floor.rows = l
  induction l with
  | nil => rfl
  | cons r l ih =>
    simp only [List.flatMap_cons, List.map_append, ih]
    congr 1
    rw [List.map_map]
    exact expandGrid_row floor r _

end GridLemmas

/-! Theorems settling the claims. -/

/-- Claim C1, counterexample: a box that is simultaneously selected,
car-present and in error state is rendered in the blink color, not the
selection color, at blink-on phase. -/
theorem selection_wins_counterexample :
    resolveColor (some "limegreen") true true true true = "firebrick" ∧
      resolveColor (some "limegreen") true true true true ≠ "yellow" := by
  constructor <;> decide

/-- Claim C1 (amended): when a box is simultaneously selected, car-present
and in error state, the resolved color is the selection color ("yellow")
only at blink-off phase; at blink-on phase the error blink color
("firebrick") wins.  The precedence order is base color < car-present
override < selection override < error blink override: the error blink has
the highest precedence, not the selection. -/
theorem error_blink_overrides_selection :
    (∀ (base : Option String) (blink : Bool),
      resolveColor base true true true blink =
        if blink then "firebrick" else "yellow") ∧
    (∀ (base : Option String) (car sel : Bool),
      resolveColor base car sel true true = "firebrick") ∧
    (∀ (base : Option String) (car blink : Bool),
      resolveColor base car true false blink = "yellow") := by
  refine ⟨fun base blink => ?_, fun base car sel => ?_, fun base car blink => ?_⟩
  · cases blink <;> simp [resolveColor]
  · simp [resolveColor]
  · simp [resolveColor]

/-- Claim C8: `expandGrid` emits exactly one box per occupied cell `(r, c)`,
in row-major order, with world position `x = c*cellWidth + cellWidth/2`,
`z = r*cellDepth + cellDepth/2`, `y` the grid's floor y, and id the row
label (falling back to the numeric row index) followed by the 1-based
column number; in particular the 2×2 grid `[[1,0],[0,1]]` with
`cellWidth = cellDepth = 10` and no row labels yields exactly the boxes
"01" at (5,y,5) and "12" at (15,y,15). -/
theorem expandGrid_one_box_per_occupied_cell :
    (∀ floor : Floor, expandGrid floor = (occupiedCells floor).map (specBoxOf floor)) ∧
    (∀ (y : ℚ) (tpl : BoxTemplate),
      expandGrid
          { rows := 2, cols := 2, grid := [[1, 0], [0, 1]], cellWidth := 10,
            cellDepth := 10, rowLabels := none, box := tpl, y := y } =
        [{ id := "01", x := 5, y := y, z := 5, width := tpl.width, height := tpl.height,
           depth := tpl.depth, color := tpl.color },
         { id := "12", x := 15, y := y, z := 15, width := tpl.width, height := tpl.height,
           depth := tpl.depth, color := tpl.color }]) := by
  refine ⟨expandGrid_eq_map_occupied, fun y tpl => ?_⟩
  rw [expandGrid_eq_map_occupied]
  have hocc : occupiedCells
      { rows := 2, cols := 2, grid := [[1, 0], [0, 1]], cellWidth := 10,
        cellDepth := 10, rowLabels := none, box := tpl, y := y } = [(0, 0), (1, 1)] := rfl
  rw [hocc]
  norm_num [specBoxOf, rowLabelOf, labelValOf, truthy, cellAt]
  exact ⟨rfl, rfl⟩

/-- Claim C10: whenever the `rowLabels` entry for row `r` is falsy (empty
string, 0, null or undefined — including when the list is absent or too
short), `expandGrid` uses the numeric row index as the row label, so the
ids of the boxes emitted for row `r` are the decimal row index followed by
the 1-based column number. -/
theorem rowLabel_falsy_fallback (floor : Floor) (r : Nat)
    (h : truthy (labelValOf floor r) = false) :
    rowLabelOf floor r = toString r ∧
    ∀ c : Nat, r < floor.rows → c < floor.cols → cellAt floor r c = 1 →
      gridBox floor r c ∈ expandGrid floor ∧
      (gridBox floor r c).id = toString r ++ toString (c + 1) := by
  have hlab : rowLabelOf floor r = toString r := by
    rw [rowLabelOf, h]
    simp
  refine ⟨hlab, fun c hr hc hocc => ⟨?_, ?_⟩⟩
  · rw [expandGrid]
    refine List.mem_flatMap.2 ⟨r, List.mem_range.2 hr, ?_⟩
    refine List.mem_filterMap.2 ⟨c, List.mem_range.2 hc, ?_⟩
    rw [if_pos hocc]
  · rw [gridBox]
    simp [hlab]

/-- Witness for C10 at a concrete grid whose row-0 label is the (falsy)
empty string: the fallback label is "0" and the single box's id is "01". -/
theorem rowLabel_falsy_fallback_witness :
    rowLabelOf
        { rows := 1, cols := 1, grid := [[1]], cellWidth := 10, cellDepth := 10,
          rowLabels := some [JVal.str ""], box := ⟨4, 2, 4, none⟩, y := 0 } 0 =
      toString 0 ∧
    gridBox
        { rows := 1, cols := 1, grid := [[1]], cellWidth := 10, cellDepth := 10,
          rowLabels := some [JVal.str ""], box := ⟨4, 2, 4, none⟩, y := 0 } 0 0 ∈
      expandGrid
        { rows := 1, cols := 1, grid := [[1]], cellWidth := 10, cellDepth := 10,
          rowLabels := some [JVal.str ""], box := ⟨4, 2, 4, none⟩, y := 0 } ∧
    (gridBox
        { rows := 1, cols := 1, grid := [[1]], cellWidth := 10, cellDepth := 10,
          rowLabels := some [JVal.str ""], box := ⟨4, 2, 4, none⟩, y := 0 } 0 0).id =
      toString 0 ++ toString 1 := by
  have H := rowLabel_falsy_fallback
    { rows := 1, cols := 1, grid := [[1]], cellWidth := 10, cellDepth := 10,
      rowLabels := some [JVal.str ""], box := ⟨4, 2, 4, none⟩, y := 0 } 0 rfl
  exact ⟨H.1, (H.2 0 Nat.one_pos Nat.one_pos rfl).1, (H.2 0 Nat.one_pos Nat.one_pos rfl).2⟩

/-- Claim C2: over the lifetime of an animation entry the completion
callback fires exactly once if the entry completes and never otherwise; an
absent (completed and removed) entry is never stepped again — the mesh is
left untouched and the callback never refires; and in any continued run
past a completed prefix, the mesh stays at its completion value and the
callback count stays at one. -/
theorem completion_callback_once {α : Type} [LinearOrderedField α] (piv : α) (k : Kind)
    (m : Mesh α) (o : AnimObj α) (ds : List α) :
    (runEntry piv k m (some o) ds).2.2 =
      (if (runEntry piv k m (some o) ds).2.1 = none then 1 else 0) ∧
    (∀ (m' : Mesh α) (ds' : List α), runEntry piv k m' none ds' = (m', none, 0)) ∧
    (∀ ds₂ : List α, (runEntry piv k m (some o) ds).2.1 = none →
      runEntry piv k m (some o) (ds ++ ds₂) =
        ((runEntry piv k m (some o) ds).1, none, 1)) := by
  refine ⟨runEntry_count piv k m o ds, runEntry_none piv k, fun ds₂ h => ?_⟩
  have hcount := runEntry_count piv k m o ds
  rw [if_pos h] at hcount
  rw [runEntry_append, h, runEntry_none]
  simp [hcount]

/-- Witness for C2: a 1-unit move entry completes on the first of two
1-second frames and the second frame neither moves the mesh nor refires the
callback. -/
theorem completion_callback_once_witness :
    runEntry (1 : ℚ) Kind.move ⟨0, 0, 0, 0⟩ (some ⟨Axis.x, 1⟩) [1, 1] =
      (⟨1, 0, 0, 0⟩, none, 1) := by
  have hrun : runEntry (1 : ℚ) Kind.move ⟨0, 0, 0, 0⟩ (some ⟨Axis.x, 1⟩) [1] =
      (⟨1, 0, 0, 0⟩, none, 1) := by
    norm_num [runEntry, updateTransform, jsign, speedOf, posAdd, min_def, abs]
  have H := (completion_callback_once (1 : ℚ) Kind.move ⟨0, 0, 0, 0⟩ ⟨Axis.x, 1⟩ [1]).2.2
    [1] (by rw [hrun])
  rw [hrun] at H
  simpa using H

/-- Claim C3, counterexample: with distance 1 and a single frame of elapsed
time 1999/2000 seconds, the move entry completes (|remaining| = 1/2000 <
0.001, entry removed) but the cumulative displacement along the axis is
1999/2000, not exactly 1. -/
theorem move_exact_sum_counterexample :
    (runEntry (1 : ℚ) Kind.move ⟨0, 0, 0, 0⟩ (some ⟨Axis.x, 1⟩) [1999 / 2000]).2.1 =
      none ∧
    (runEntry (1 : ℚ) Kind.move ⟨0, 0, 0, 0⟩ (some ⟨Axis.x, 1⟩)
        [1999 / 2000]).1.posx ≠ 0 + 1 := by
  norm_num [runEntry, updateTransform, jsign, speedOf, posAdd, min_def, abs]

/-- Claim C3 (amended): for every nonzero finite distance d and axis a,
advancing a move entry with remaining = d over any sequence of elapsed
times until the entry is removed makes the cumulative displacement along a
sum to within 0.001 of d (exactly d whenever the final step was clamped to
the full remaining), the entry is removed once the cumulative step reaches
d within 0.001 tolerance, and the completion callback fires exactly once. -/
theorem move_total_displacement {α : Type} [LinearOrderedField α] (piv : α)
    (m : Mesh α) (o : AnimObj α) (ds : List α)
    (hdone : (runEntry piv Kind.move m (some o) ds).2.1 = none) :
    |posGet (runEntry piv Kind.move m (some o) ds).1 o.axis -
        (posGet m o.axis + o.remaining)| < 1 / 1000 ∧
    (runEntry piv Kind.move m (some o) ds).2.2 = 1 := by
  constructor
  · rcases runEntry_tracked piv Kind.move m o ds with ⟨o', ho', _, _⟩ | ⟨_, hres⟩
    · rw [ho'] at hdone
      cases hdone
    · simpa [tracked] using hres
  · rw [runEntry_count, if_pos hdone]

/-- Witness for C3 (amended): a 1-unit move driven by a single 1-second
frame lands within 0.001 of the target with one callback. -/
theorem move_total_displacement_witness :
    |posGet (runEntry (1 : ℚ) Kind.move ⟨0, 0, 0, 0⟩ (some ⟨Axis.x, 1⟩) [1]).1 Axis.x -
        (posGet (⟨0, 0, 0, 0⟩ : Mesh ℚ) Axis.x + 1)| < 1 / 1000 ∧
    (runEntry (1 : ℚ) Kind.move ⟨0, 0, 0, 0⟩ (some ⟨Axis.x, 1⟩) [1]).2.2 = 1 :=
  move_total_displacement 1 ⟨0, 0, 0, 0⟩ ⟨Axis.x, 1⟩ [1]
    (by norm_num [runEntry, updateTransform, jsign, speedOf, posAdd, min_def, abs])

/-- Claim C5: `handleMove` is a no-op leaving the whole state unchanged
when nothing is selected (with a warning), when the parsed distance is NaN
or zero (silently), or when the selected box has a live move or rotate
entry (silently); `handleRotate` is likewise a no-op under the
null-selection (warning) and live-entry (silent) conditions. -/
theorem request_rejection_noop {α : Type} [LinearOrderedField α] (piv : α)
    (s : AppState α) :
    (s.selectedBoxId = none →
      handleMove s = (s, true) ∧ handleRotate piv s = (s, true)) ∧
    (∀ sel, s.selectedBoxId = some sel →
      (s.distance = none ∨ s.distance = some 0) → handleMove s = (s, false)) ∧
    (∀ sel, s.selectedBoxId = some sel →
      ((s.moving sel).isSome ∨ (s.rotating sel).isSome) →
      handleMove s = (s, false) ∧ handleRotate piv s = (s, false)) := by
  refine ⟨fun h => ?_, fun sel hsel hd => ?_, fun sel hsel hlive => ?_⟩
  · rw [handleMove, handleRotate, h]
    exact ⟨rfl, rfl⟩
  · rcases hd with hd | hd
    · rw [handleMove, hsel, hd]
    · rw [handleMove, hsel, hd]
      simp
  · have hguard : ((s.moving sel).isSome || (s.rotating sel).isSome) = true := by
      rcases hlive with h | h <;> simp [h]
    have hguard' : ((s.rotating sel).isSome || (s.moving sel).isSome) = true := by
      rcases hlive with h | h <;> simp [h]
    constructor
    · rw [handleMove, hsel]
      rcases hdist : s.distance with _ | d
      · rfl
      · by_cases hd : d = 0
        · simp [hd]
        · simp [hd, hguard]
    · rw [handleRotate, hsel]
      simp [hguard']

/-- Witness for C5: in the initial state nothing is selected, so
`handleMove` leaves the state unchanged and warns. -/
theorem request_rejection_noop_witness :
    handleMove (initState fun _ => (⟨0, 0, 0, 0⟩ : Mesh ℚ)) =
      (initState fun _ => (⟨0, 0, 0, 0⟩ : Mesh ℚ), true) :=
  ((request_rejection_noop 1 (initState fun _ => (⟨0, 0, 0, 0⟩ : Mesh ℚ))).1 rfl).1

/-- Claim C4: one advance of an animation entry applies the step
`sign(remaining) * min(|remaining|, speed * t)` with speed 1 unit/s for
move and π rad/s for rotate; a move step touches only the entry's named
position axis and a rotate step only the Y rotation; and the remaining
delta never overshoots: it keeps its sign (or reaches 0) and its magnitude
never grows. -/
theorem updateTransform_step_spec (m : Mesh ℝ) (o : AnimObj ℝ) (k : Kind) (δ : ℝ)
    (hδ : 0 ≤ δ) :
    let speed : ℝ := match k with | Kind.move => 1 | Kind.rotate => Real.pi
    let step : ℝ := jsign o.remaining * min |o.remaining| (speed * δ)
    let rem' : ℝ := o.remaining - step
    updateTransform Real.pi m (some o) k δ =
      (let mesh' : Mesh ℝ := match k with
         | Kind.move => posAdd m o.axis step
         | Kind.rotate => { m with roty := m.roty + step }
       if |rem'| < 1 / 1000 then (mesh', none, true)
       else (mesh', some ⟨o.axis, rem'⟩, false)) ∧
    0 ≤ rem' * o.remaining ∧ |rem'| ≤ |o.remaining| ∧
    (k = Kind.move →
      posGet (updateTransform Real.pi m (some o) k δ).1 o.axis = posGet m o.axis + step ∧
      (updateTransform Real.pi m (some o) k δ).1.roty = m.roty ∧
      ∀ b : Axis, b ≠ o.axis →
        posGet (updateTransform Real.pi m (some o) k δ).1 b = posGet m b) ∧
    (k = Kind.rotate →
      (updateTransform Real.pi m (some o) k δ).1.roty =
        m.roty + step ∧
      (updateTransform Real.pi m (some o) k δ).1.posx = m.posx ∧
      (updateTransform Real.pi m (some o) k δ).1.posy = m.posy ∧
      (updateTransform Real.pi m (some o) k δ).1.posz = m.posz) := by
  cases k
  · dsimp only
    have hno := step_no_overshoot o.remaining (1 * δ) (by linarith)
    refine ⟨rfl, hno.1, hno.2, fun _ => ?_, fun hk => absurd hk (by decide)⟩
    rw [updateTransform_some_eq]
    dsimp only [speedOf]
    split <;>
      exact ⟨posGet_posAdd_self m o.axis _, roty_posAdd m o.axis _,
        fun b hb => posGet_posAdd_other m o.axis b _ hb⟩
  · dsimp only
    have hno := step_no_overshoot o.remaining (Real.pi * δ)
      (mul_nonneg Real.pi_nonneg hδ)
    refine ⟨rfl, hno.1, hno.2, fun hk => absurd hk (by decide), fun _ => ?_⟩
    rw [updateTransform_some_eq]
    dsimp only [speedOf]
    split <;> exact ⟨rfl, rfl, rfl, rfl⟩

/-- Witness for C4: a move entry with remaining 2 advanced by a 1-second
frame steps the x position by exactly min(2, 1) = 1 and keeps a remaining
of 1. -/
theorem updateTransform_step_spec_witness :
    updateTransform Real.pi (⟨0, 0, 0, 0⟩ : Mesh ℝ) (some ⟨Axis.x, 2⟩) Kind.move 1 =
      (⟨1, 0, 0, 0⟩, some ⟨Axis.x, 1⟩, false) := by
  have H := updateTransform_step_spec ⟨0, 0, 0, 0⟩ ⟨Axis.x, 2⟩ Kind.move 1 (by norm_num)
  rw [H.1]
  norm_num [jsign, posAdd, min_def, abs]

/-- Claim C6: in every reachable state of the app, no box has a live move
entry and a live rotate entry at the same time: `handleMove` and
`handleRotate` each reject while an entry of either kind is live, and frame
ticks never create entries. -/
theorem no_dual_animation {α : Type} [LinearOrderedField α] (piv : α) (s : AppState α)
    (h : Reachable piv s) (boxId : String) :
    ¬((s.moving boxId).isSome ∧ (s.rotating boxId).isSome) := by
  induction h with
  | init meshes => simp [initState]
  | select v _ ih => exact ih
  | axisSel a _ ih => exact ih
  | distance d _ ih => exact ih
  | car b _ ih => exact ih
  | error b _ ih => exact ih
  | @move s' _ ih =>
    rcases hsel : s'.selectedBoxId with _ | sel
    · simp only [handleMove, hsel]
      exact ih
    · rcases hdist : s'.distance with _ | d
      · simp only [handleMove, hsel, hdist]
        exact ih
      · by_cases hd : d = 0
        · simp only [handleMove, hsel, hdist, if_pos hd]
          exact ih
        · by_cases hlive : ((s'.moving sel).isSome || (s'.rotating sel).isSome) = true
          · simp only [handleMove, hsel, hdist, if_neg hd, if_pos hlive]
            exact ih
          · simp only [handleMove, hsel, hdist, if_neg hd, if_neg hlive]
            simp only [Bool.or_eq_true, not_or, Bool.not_eq_true] at hlive
            by_cases hb : boxId = sel
            · subst hb
              simp only [if_pos rfl]
              rintro ⟨-, hrot⟩
              rw [hlive.2] at hrot
              cases hrot
            · simp only [if_neg hb]
              exact ih
  | @rotate s' _ ih =>
    rcases hsel : s'.selectedBoxId with _ | sel
    · simp only [handleRotate, hsel]
      exact ih
    · by_cases hlive : ((s'.rotating sel).isSome || (s'.moving sel).isSome) = true
      · simp only [handleRotate, hsel, if_pos hlive]
        exact ih
      · simp only [handleRotate, hsel, if_neg hlive]
        simp only [Bool.or_eq_true, not_or, Bool.not_eq_true] at hlive
        by_cases hb : boxId = sel
        · subst hb
          simp only [if_pos rfl]
          rintro ⟨hmov, -⟩
          rw [hlive.2] at hmov
          cases hmov
        · simp only [if_neg hb]
          exact ih
  | @frame s' b δ' _ ih =>
    simp only [frameBox]
    by_cases hb : boxId = b
    · subst hb
      simp only [if_pos rfl]
      rintro ⟨hmov, hrot⟩
      exact ih ⟨updateTransform_entry_isSome piv _ _ Kind.move δ' hmov,
        updateTransform_entry_isSome piv _ _ Kind.rotate δ' hrot⟩
    · simp only [if_neg hb]
      exact ih

/-- Witness for C6: after selecting box "A1", setting distance 5 and
starting a move, "A1" does not hold both a move and a rotate entry. -/
theorem no_dual_animation_witness :
    ¬(((handleMove (setDistanceField (some 5) (setSelected (some "A1")
          (initState fun _ => (⟨0, 0, 0, 0⟩ : Mesh ℚ))))).1.moving "A1").isSome ∧
      ((handleMove (setDistanceField (some 5) (setSelected (some "A1")
          (initState fun _ => (⟨0, 0, 0, 0⟩ : Mesh ℚ))))).1.rotating "A1").isSome) :=
  no_dual_animation 1 _
    (Reachable.move (Reachable.distance (some 5)
      (Reachable.select (some "A1") (Reachable.init _)))) "A1"

/-- Claim C7: for every nonzero finite initial delta and every frame-time
sequence bounded below by a positive ε, the animation entry completes
(entry removed, |remaining| < 0.001) after finitely many frames. -/
theorem animation_terminates {α : Type} [LinearOrderedField α] [Archimedean α]
    (piv : α) (k : Kind) (m : Mesh α) (o : AnimObj α) (ε : α) (t : Nat → α)
    (hpiv : 0 < piv) (_hrem : o.remaining ≠ 0) (hε : 0 < ε) (ht : ∀ n, ε ≤ t n) :
    ∃ N : Nat, (runEntry piv k m (some o) ((List.range N).map t)).2.1 = none := by
  have hs : 0 < speedOf piv k := by
    cases k
    · norm_num [speedOf]
    · simpa [speedOf] using hpiv
  have hsε : 0 < speedOf piv k * ε := mul_pos hs hε
  obtain ⟨N, hN⟩ := exists_nat_gt (|o.remaining| / (speedOf piv k * ε))
  refine ⟨N, ?_⟩
  rcases runEntry_range_decrease piv k t ε hs hε ht m o N with h | ⟨o', _, hbound⟩
  · exact h
  · exfalso
    rw [div_lt_iff₀ hsε] at hN
    have := abs_nonneg o'.remaining
    linarith

/-- Witness for C7: a 1-unit move with constant 1-second frames completes
in finitely many frames. -/
theorem animation_terminates_witness :
    ∃ N : Nat, (runEntry (1 : ℚ) Kind.move ⟨0, 0, 0, 0⟩ (some ⟨Axis.x, 1⟩)
      ((List.range N).map fun _ => 1)).2.1 = none :=
  animation_terminates 1 Kind.move ⟨0, 0, 0, 0⟩ ⟨Axis.x, 1⟩ 1 (fun _ => 1)
    (by norm_num) (by norm_num) (by norm_num) (fun n => le_refl 1)

/-- Claim C9, counterexample: with frame time (π - 1/2000)/π seconds, a
rotate animation completes while leaving a residual of 1/2000 rad, so two
sequential completed 180° rotations land at 2π - 1/1000, which is not the
original Y rotation modulo 2π. -/
theorem double_rotation_exact_counterexample :
    (runEntry Real.pi Kind.rotate ⟨0, 0, 0, 0⟩ (some ⟨Axis.x, Real.pi⟩)
        [(Real.pi - 1 / 2000) / Real.pi]).2.1 = none ∧
    (runEntry Real.pi Kind.rotate
        (runEntry Real.pi Kind.rotate ⟨0, 0, 0, 0⟩ (some ⟨Axis.x, Real.pi⟩)
          [(Real.pi - 1 / 2000) / Real.pi]).1
        (some ⟨Axis.x, Real.pi⟩) [(Real.pi - 1 / 2000) / Real.pi]).2.1 = none ∧
    ¬∃ j : Int,
      (runEntry Real.pi Kind.rotate
          (runEntry Real.pi Kind.rotate ⟨0, 0, 0, 0⟩ (some ⟨Axis.x, Real.pi⟩)
            [(Real.pi - 1 / 2000) / Real.pi]).1
          (some ⟨Axis.x, Real.pi⟩) [(Real.pi - 1 / 2000) / Real.pi]).1.roty -
        (⟨0, 0, 0, 0⟩ : Mesh ℝ).roty = 2 * Real.pi * j := by
  have hpi := Real.pi_pos
  have hπδ : Real.pi * ((Real.pi - 1 / 2000) / Real.pi) = Real.pi - 1 / 2000 :=
    mul_div_cancel₀ _ hpi.ne'
  have hsign : jsign Real.pi = (1 : ℝ) := by
    simp [jsign, hpi.not_lt, hpi.ne']
  have hmin : min |Real.pi| (Real.pi * ((Real.pi - 1 / 2000) / Real.pi)) =
      Real.pi - 1 / 2000 := by
    rw [abs_of_pos hpi, hπδ]
    exact min_eq_right (by linarith)
  have key : ∀ M : Mesh ℝ,
      runEntry Real.pi Kind.rotate M (some ⟨Axis.x, Real.pi⟩)
        [(Real.pi - 1 / 2000) / Real.pi] =
        ({ M with roty := M.roty + (Real.pi - 1 / 2000) }, none, 1) := by
    intro M
    rw [runEntry_single, updateTransform_some_eq]
    dsimp only [speedOf]
    rw [hsign, hmin, one_mul]
    have hrem : Real.pi - (Real.pi - 1 / 2000) = (1 : ℝ) / 2000 := by ring
    rw [hrem]
    have hcond : |(1 : ℝ) / 2000| < 1 / 1000 := by
      rw [abs_of_pos (by norm_num : (0 : ℝ) < 1 / 2000)]
      norm_num
    rw [if_pos hcond]
    rfl
  rw [key, key]
  dsimp only
  refine ⟨rfl, rfl, ?_⟩
  rintro ⟨j, hj⟩
  have hπ3 : Real.pi > 3 := Real.pi_gt_three
  have h2π : (0 : ℝ) < 2 * Real.pi := by linarith
  have heq : 2 * Real.pi - 1 / 1000 = 2 * Real.pi * j := by linarith
  have hjlt : (j : ℝ) < 1 := by
    by_contra hge
    push_neg at hge
    have := mul_le_mul_of_nonneg_left hge h2π.le
    rw [mul_one] at this
    linarith
  have hjgt : (0 : ℝ) < j := by
    by_contra hle
    push_neg at hle
    have : 2 * Real.pi * j ≤ 0 :=
      mul_nonpos_of_nonneg_of_nonpos h2π.le hle
    linarith
  have h1 : (0 : Int) < j := by exact_mod_cast hjgt
  have h2 : (j : Int) < 1 := by exact_mod_cast hjlt
  omega

/-- Claim C9 (amended): every rotate entry is created with remaining = π
regardless of the mesh's prior Y rotation; two rotate animations run to
completion in sequence return the Y rotation to within 0.002 of its
original value plus 2π — i.e. to the original value modulo 2π up to the
0.001-per-animation completion tolerance (exactly, whenever the final
steps are clamped to the full remaining). -/
theorem rotate_pi_entry_and_double_rotation :
    (∀ (s : AppState ℝ) (sel : String), s.selectedBoxId = some sel →
      s.rotating sel = none → s.moving sel = none →
      (handleRotate Real.pi s).1.rotating sel = some ⟨Axis.x, Real.pi⟩) ∧
    (∀ (m : Mesh ℝ) (ds₁ ds₂ : List ℝ),
      (runEntry Real.pi Kind.rotate m (some ⟨Axis.x, Real.pi⟩) ds₁).2.1 = none →
      (runEntry Real.pi Kind.rotate
          (runEntry Real.pi Kind.rotate m (some ⟨Axis.x, Real.pi⟩) ds₁).1
          (some ⟨Axis.x, Real.pi⟩) ds₂).2.1 = none →
      |(runEntry Real.pi Kind.rotate
          (runEntry Real.pi Kind.rotate m (some ⟨Axis.x, Real.pi⟩) ds₁).1
          (some ⟨Axis.x, Real.pi⟩) ds₂).1.roty - (m.roty + 2 * Real.pi)| < 1 / 500) := by
  constructor
  · intro s sel hsel hrot hmov
    simp only [handleRotate, hsel, hrot, hmov]
    simp
  · intro m ds₁ ds₂ h1 h2
    rcases runEntry_tracked Real.pi Kind.rotate m ⟨Axis.x, Real.pi⟩ ds₁ with
      ⟨o', ho', _, _⟩ | ⟨_, hres1⟩
    · rw [ho'] at h1
      cases h1
    · rcases runEntry_tracked Real.pi Kind.rotate
          (runEntry Real.pi Kind.rotate m (some ⟨Axis.x, Real.pi⟩) ds₁).1
          ⟨Axis.x, Real.pi⟩ ds₂ with ⟨o'', ho'', _, _⟩ | ⟨_, hres2⟩
      · rw [ho''] at h2
        cases h2
      · simp only [tracked] at hres1 hres2
        rw [abs_lt] at hres1 hres2 ⊢
        constructor <;> linarith [hres1.1, hres1.2, hres2.1, hres2.2]

/-- Witness for C9 (amended): with 1-second frames each rotation clamps to
exactly π, and after two completed rotations the Y rotation is exactly the
original plus 2π. -/
theorem rotate_pi_entry_and_double_rotation_witness :
    |(runEntry Real.pi Kind.rotate
        (runEntry Real.pi Kind.rotate ⟨0, 0, 0, 0⟩ (some ⟨Axis.x, Real.pi⟩) [1]).1
        (some ⟨Axis.x, Real.pi⟩) [1]).1.roty -
      ((⟨0, 0, 0, 0⟩ : Mesh ℝ).roty + 2 * Real.pi)| < 1 / 500 := by
  have hpi := Real.pi_pos
  have key : ∀ M : Mesh ℝ,
      runEntry Real.pi Kind.rotate M (some ⟨Axis.x, Real.pi⟩) [1] =
        ({ M with roty := M.roty + Real.pi }, none, 1) := by
    intro M
    rw [runEntry_single, updateTransform_some_eq]
    dsimp only [speedOf]
    have hsign : jsign Real.pi = (1 : ℝ) := by
      simp [jsign, hpi.not_lt, hpi.ne']
    rw [mul_one, abs_of_pos hpi, min_self, hsign, one_mul, sub_self]
    rw [if_pos (by rw [abs_zero]; norm_num : |(0 : ℝ)| < 1 / 1000)]
    rfl
  exact rotate_pi_entry_and_double_rotation.2 ⟨0, 0, 0, 0⟩ [1] [1]
    (by rw [key]) (by rw [key, key])

end Warehouse3D
